import Mathlib

/-!
# Verification of the CKD Grey Wolf Optimizer and pipeline checkpoint controller

Shallow embedding of `src/ckd_project/src/gwo_optimizer.py` and of the
checkpoint/resume logic of `src/ckd_project/main.py`, together with theorems
settling the specification's claims about them.

Python floats are modelled as rationals; the sentinel `float('inf')` is the
top element of `WithTop ℚ`.  Randomness is modelled by an explicit tape
supplying each uniform draw the source requests.
-/

/-- Objective scores: rationals extended with the `float('inf')` sentinel. -/
abbrev Score := WithTop ℚ

/-- `np.clip(x, lo, hi)` (gwo_optimizer.py line 135): equal to `min hi (max lo x)`. -/
def npClip (lo hi x : ℚ) : ℚ := min hi (max lo x)

/-- The leader hierarchy of `GreyWolfOptimizer.optimize`: alpha/beta/delta
positions and scores (gwo_optimizer.py lines 72-78). -/
structure Hierarchy where
  alphaPos : List ℚ
  alphaScore : Score
  betaPos : List ℚ
  betaScore : Score
  deltaPos : List ℚ
  deltaScore : Score
deriving DecidableEq

/-- Leaders before any evaluation: zero position vectors and `+inf` scores
(gwo_optimizer.py lines 73-78, `np.zeros(dim)` / `float('inf')`). -/
def initHierarchy (dim : ℕ) : Hierarchy :=
  ⟨List.replicate dim 0, ⊤, List.replicate dim 0, ⊤, List.replicate dim 0, ⊤⟩

/-- Hierarchy update for one evaluated wolf (gwo_optimizer.py lines 88-102):
a strictly better fitness than alpha's demotes alpha to beta and beta to delta;
else one better than beta's demotes beta to delta; else one better than
delta's replaces delta; otherwise nothing changes. -/
def updateHierarchy (h : Hierarchy) (pos : List ℚ) (fitness : Score) : Hierarchy :=
  if fitness < h.alphaScore then
    ⟨pos, fitness, h.alphaPos, h.alphaScore, h.betaPos, h.betaScore⟩
  else if fitness < h.betaScore then
    ⟨h.alphaPos, h.alphaScore, pos, fitness, h.betaPos, h.betaScore⟩
  else if fitness < h.deltaScore then
    ⟨h.alphaPos, h.alphaScore, h.betaPos, h.betaScore, pos, fitness⟩
  else
    h

/-- One evaluation pass over the whole pack (gwo_optimizer.py lines 84-102):
evaluate the objective at every wolf position in order and update the
hierarchy after each evaluation. -/
def evalPass (f : List ℚ → Score) (positions : List (List ℚ)) (h : Hierarchy) :
    Hierarchy :=
  positions.foldl (fun acc p => updateHierarchy acc p (f p)) h

/-- The six fresh uniform draws one coordinate update consumes: an `(r1, r2)`
pair per leader (gwo_optimizer.py lines 111, 118, 125). -/
structure CoordDraws where
  ar1 : ℚ
  ar2 : ℚ
  br1 : ℚ
  br2 : ℚ
  dr1 : ℚ
  dr2 : ℚ

/-- Single-leader encircling step (gwo_optimizer.py lines 111-129):
`A = 2·a·r1 − a`, `C = 2·r2`, `D = |C·leader − x|`, result `leader − A·D`. -/
def encircle (a r1 r2 leader x : ℚ) : ℚ :=
  let A := 2 * a * r1 - a
  let C := 2 * r2
  let D := |C * leader - x|
  leader - A * D

/-- New coordinate `j` of one wolf (gwo_optimizer.py lines 108-135): the
unweighted mean of the three leader pulls, clipped into `[lo, hi]`. -/
def updateCoord (a lo hi : ℚ) (d : CoordDraws) (alphaJ betaJ deltaJ x : ℚ) : ℚ :=
  let X1 := encircle a d.ar1 d.ar2 alphaJ x
  let X2 := encircle a d.br1 d.br2 betaJ x
  let X3 := encircle a d.dr1 d.dr2 deltaJ x
  npClip lo hi ((X1 + X2 + X3) / 3)

/-- Position update of one wolf (gwo_optimizer.py lines 108-135); `draws j`
supplies the six fresh draws coordinate `j` consumes.  Each coordinate reads
only the wolf's own pre-update coordinate `j`, as in the source, where
`positions[i, j]` is read before being overwritten. -/
def updateWolf (lb ub : List ℚ) (a : ℚ) (draws : ℕ → CoordDraws) (h : Hierarchy)
    (pos : List ℚ) : List ℚ :=
  (List.range pos.length).map fun j =>
    updateCoord a (lb.getD j 0) (ub.getD j 0) (draws j)
      (h.alphaPos.getD j 0) (h.betaPos.getD j 0) (h.deltaPos.getD j 0)
      (pos.getD j 0)

/-- The mutable state of one `optimize` run: the pack positions, the leader
hierarchy, and the convergence curve appended to each iteration
(gwo_optimizer.py lines 53, 67-78, 137). -/
structure GWOState where
  positions : List (List ℚ)
  hier : Hierarchy
  curve : List Score
deriving DecidableEq

/-- A random tape for one run: `initDraw i j` is the uniform draw used for
wolf `i`, dimension `j` at initialization; `iterDraw t i j` bundles the six
draws wolf `i`, dimension `j` consumes in iteration `t`. -/
structure RandomTape where
  initDraw : ℕ → ℕ → ℚ
  iterDraw : ℕ → ℕ → ℕ → CoordDraws

/-- `np.random.uniform(low=self.lb, high=self.ub, size=(n_wolves, dim))`
(gwo_optimizer.py lines 67-70): entry `(i, j)` is `lb j + r·(ub j − lb j)`
for a fresh uniform draw `r ∈ [0, 1]`. -/
def initPositions (lb ub : List ℚ) (dim nWolves : ℕ) (tape : RandomTape) :
    List (List ℚ) :=
  (List.range nWolves).map fun i =>
    (List.range dim).map fun j =>
      lb.getD j 0 + tape.initDraw i j * (ub.getD j 0 - lb.getD j 0)

/-- One iteration `t` of the main loop (gwo_optimizer.py lines 82-137):
evaluate all wolves and update the hierarchy, compute the decay coefficient
`a = 2 − t·(2/maxIter)`, update every wolf position against the fresh
hierarchy, and append alpha's score to the convergence curve. -/
def gwoIter (f : List ℚ → Score) (lb ub : List ℚ) (maxIter : ℕ)
    (tape : RandomTape) (t : ℕ) (s : GWOState) : GWOState :=
  let h := evalPass f s.positions s.hier
  let a : ℚ := 2 - (t : ℚ) * (2 / (maxIter : ℚ))
  let newPositions := (List.range s.positions.length).map fun i =>
    updateWolf lb ub a (tape.iterDraw t i) h (s.positions.getD i [])
  ⟨newPositions, h, s.curve ++ [h.alphaScore]⟩

/-- The state before the first iteration: freshly drawn positions, empty
leaders, empty convergence curve (gwo_optimizer.py lines 53, 66-78). -/
def gwoInit (lb ub : List ℚ) (dim nWolves : ℕ) (tape : RandomTape) : GWOState :=
  ⟨initPositions lb ub dim nWolves tape, initHierarchy dim, []⟩

/-- The state after the first `t` iterations of a run whose iteration budget
is `maxIter` (gwo_optimizer.py lines 82-137). -/
def gwoRun (f : List ℚ → Score) (dim : ℕ) (lb ub : List ℚ)
    (nWolves maxIter : ℕ) (tape : RandomTape) (t : ℕ) : GWOState :=
  (List.range t).foldl (fun s u => gwoIter f lb ub maxIter tape u s)
    (gwoInit lb ub dim nWolves tape)

/-- `GreyWolfOptimizer.optimize` (gwo_optimizer.py lines 55-145): run all
`maxIter` iterations; the Python return value is
`(state.hier.alphaPos, state.hier.alphaScore)` and `self.convergence_curve`
is `state.curve`. -/
def gwoOptimize (f : List ℚ → Score) (dim : ℕ) (lb ub : List ℚ)
    (nWolves maxIter : ℕ) (tape : RandomTape) : GWOState :=
  gwoRun f dim lb ub nWolves maxIter tape maxIter

/-- Neither `GreyWolfOptimizer.__init__` (gwo_optimizer.py lines 44-53) nor
`optimize` validates the search space; the only error an invalid one can
raise is numpy's broadcast `ValueError` inside `np.random.uniform` when a
bound vector's length is neither `dim` nor 1 (line 67-70).  Bound ordering is
never checked anywhere. -/
def gwoOptimizeChecked (f : List ℚ → Score) (dim : ℕ) (lb ub : List ℚ)
    (nWolves maxIter : ℕ) (tape : RandomTape) : Except String GWOState :=
  if (lb.length ≠ dim ∧ lb.length ≠ 1) ∨ (ub.length ≠ dim ∧ ub.length ≠ 1) then
    Except.error "ValueError: could not broadcast bounds to (n_wolves, dim)"
  else
    Except.ok (gwoOptimize f dim lb ub nWolves maxIter tape)

/-- The all-zero random tape, used to evaluate the model at concrete inputs. -/
def zeroTape : RandomTape :=
  ⟨fun _ _ => 0, fun _ _ _ => ⟨0, 0, 0, 0, 0, 0⟩⟩

/-- Position containment: length `dim` and `lb j ≤ x j ≤ ub j` in every
coordinate. -/
def inBounds (lb ub : List ℚ) (dim : ℕ) (pos : List ℚ) : Prop :=
  pos.length = dim ∧
    ∀ j, j < dim → lb.getD j 0 ≤ pos.getD j 0 ∧ pos.getD j 0 ≤ ub.getD j 0

instance (lb ub : List ℚ) (dim : ℕ) (pos : List ℚ) :
    Decidable (inBounds lb ub dim pos) := by
  unfold inBounds
  infer_instance

/-! ## The objective adapter (`optimize_svr_with_gwo.objective`, lines 171-179) -/

/-- `sklearn.metrics.mean_squared_error(y, yPred)`: the mean of the squared
residuals (used at gwo_optimizer.py line 177). -/
def meanSquaredError (y yPred : List ℚ) : ℚ :=
  (((y.zip yPred).map fun p => (p.1 - p.2) ^ 2).sum) / ((y.length : ℚ))

/-- The adapter `objective(params)` (gwo_optimizer.py lines 171-179): unpack
`(C, epsilon, gamma)` from the 3-element parameter vector, run the external
estimator work — `SVR(...)`, `fit`, `predict` (lines 174-176), abstracted here
as `svrFitPredict`, which either yields validation predictions or raises —
and return `np.sqrt(mean_squared_error(y_val, y_pred))`; any exception in the
`try` block is caught and mapped to `float('inf')` (lines 178-179). -/
noncomputable def svrObjective
    (svrFitPredict : ℚ → ℚ → ℚ → Except String (List ℚ))
    (yVal : List ℚ) (params : ℚ × ℚ × ℚ) : WithTop ℝ :=
  match svrFitPredict params.1 params.2.1 params.2.2 with
  | Except.ok yPred => ((Real.sqrt ((meanSquaredError yVal yPred : ℚ) : ℝ)) : WithTop ℝ)
  | Except.error _ => ⊤

/-! ## The pipeline checkpoint controller (`main.py`) -/

/-- A checkpoint artifact on disk: `none` — the file is absent
(`os.path.exists` is false); `some (Except.error e)` — the file exists but
`joblib.load` raises; `some (Except.ok kvs)` — the file loads as a dict with
fields `kvs`. -/
abbrev CkptFile (V : Type) := Option (Except String (List (String × V)))

/-- The field names the full-resume branch destructures with `cp[...]`
(main.py lines 76-80); the `cp.get(...)` accesses of lines 84-85 never raise
and so are not required. -/
def fullRequiredKeys : List String :=
  ["data", "reg_results", "class_results", "y_test_egfr", "y_test_stage",
   "X_test_cls", "feat_cls", "gwo_curve", "best_params", "best_score",
   "timestamp"]

/-- The field names the GWO-resume branch destructures with `cp[...]`
(main.py lines 97-102); `scaler_reg` is read with `cp.get` and is not
required. -/
def gwoRequiredKeys : List String :=
  ["data", "reg_results", "X_train_reg", "X_test_reg", "y_test_egfr",
   "X_train_cls", "X_test_cls", "y_train_stage", "y_test_stage",
   "scaler_cls", "feat_cls", "best_params", "best_score", "gwo_curve",
   "svr_gwo"]

/-- One resume tier (main.py lines 72-91 and 93-106): `os.path.exists`, then
`joblib.load` and the `cp[...]` destructuring inside a single `try`; a missing
file, a load exception, or a missing required field all leave the tier's
resume flag false (the `except` only prints a debug line). -/
def tryLoadTier {V : Type} (file : CkptFile V) (required : List String) :
    Option (List (String × V)) :=
  match file with
  | none => none
  | some (Except.error _) => none
  | some (Except.ok kvs) =>
      if required.all (fun k => (kvs.lookup k).isSome) then some kvs else none

/-- Which phases a run executes after the start-up resume checks
(main.py lines 108-194). -/
inductive ResumePlan
  | fullResume
  | gwoResume
  | freshRun
deriving DecidableEq

/-- The start-up resume protocol of `main` (main.py lines 68-108): the full
checkpoint tier is tried first; only when it did not load is the GWO
checkpoint looked at; otherwise every phase runs fresh.  The boolean records
whether the GWO tier was consulted at all (the `not resumed and
os.path.exists(...)` guard of line 93). -/
def resumeDecision {V : Type} (full gwo : CkptFile V) : ResumePlan × Bool :=
  match tryLoadTier full fullRequiredKeys with
  | some _ => (ResumePlan.fullResume, false)
  | none =>
      match tryLoadTier gwo gwoRequiredKeys with
      | some _ => (ResumePlan.gwoResume, true)
      | none => (ResumePlan.freshRun, true)

/-- The GWO checkpoint dict literal (main.py lines 178-185): each stored field
name paired with the source variable whose value is stored under it. -/
def gwoCkptFields : List (String × String) :=
  [("data", "data"), ("reg_results", "reg_results"),
   ("X_train_reg", "X_train_reg"), ("X_test_reg", "X_test_reg"),
   ("y_test_egfr", "y_test_egfr"),
   ("X_train_cls", "X_train_cls"), ("X_test_cls", "X_test_cls"),
   ("y_train_stage", "y_train_stage"), ("y_test_stage", "y_test_stage"),
   ("scaler_cls", "scaler_cls"), ("scaler_reg", "scaler_reg"),
   ("feat_cls", "feat_cls"),
   ("best_params", "best_params"), ("best_score", "best_score"),
   ("gwo_curve", "gwo_curve"), ("svr_gwo", "svr_gwo")]

/-- The full checkpoint dict literal (main.py lines 204-211). -/
def fullCkptFields : List (String × String) :=
  [("data", "data"), ("reg_results", "reg_results"),
   ("class_results", "class_results"),
   ("y_test_egfr", "y_test_egfr"), ("y_test_stage", "y_test_stage"),
   ("X_test_cls", "X_test_cls"), ("feat_cls", "feat_cls"),
   ("gwo_curve", "gwo_curve"), ("best_params", "best_params"),
   ("best_score", "best_score"), ("timestamp", "timestamp"),
   ("scaler_reg", "scaler_reg"), ("scaler_cls", "scaler_cls")]

/-- A file-system effect performed by the controller itself. -/
inductive FsOp
  | write (path : String)
  | delete (path : String)
deriving DecidableEq

/-- The checkpoint and model artifact paths written in phase 8
(main.py lines 65-66, 212-220), relative to the project root. -/
def savedArtifactPaths : List String :=
  ["results/metrics/last_run_results.joblib",
   "results/metrics/gwo_results.joblib",
   "models/saved_models/best_classifier_xgboost.pkl",
   "models/saved_models/svr_gwo_optimized.pkl",
   "models/saved_models/scaler_regression.pkl",
   "models/saved_models/scaler_classification.pkl"]

/-- The controller tail after the phase-8 checkpoint/model saves
(main.py lines 223-288): write `gwo_best_params.json` (lines 225-226); run
`generate_all_plots` inside `try/except` — the `except` branch only prints
(lines 231-240) and the figure files themselves are written by the external
plotting collaborator, so the controller performs no file operation in either
branch; write `run_summary.json` (lines 276-277); then call
`generate_clinical_report` with **no** surrounding handler (line 286), so its
exception propagates and aborts the run.  Returns the controller's own
file-system effects together with `none` when the run completed or `some e`
when it aborted with exception `e`. -/
def mainTail (figures report : Except String Unit) :
    List FsOp × Option String :=
  let paramsOps := [FsOp.write "results/metrics/gwo_best_params.json"]
  let figOps : List FsOp :=
    match figures with
    | Except.ok _ => []
    | Except.error _ => []
  let summaryOps := [FsOp.write "results/metrics/run_summary.json"]
  match report with
  | Except.ok _ =>
      (paramsOps ++ figOps ++ summaryOps ++
        [FsOp.write "results/clinical_report.md"], none)
  | Except.error e => (paramsOps ++ figOps ++ summaryOps, some e)

/-! ## Crash semantics of checkpoint writing (main.py lines 186, 212) -/

/-- One step of a file write, at the granularity at which an interruption can
occur. -/
inductive FsAction
  | openTrunc (p : String)
  | writeChunk (p : String) (c : ℕ)
  | closeFile (p : String)
  | renameTo (src dst : String)

/-- File-system contents: `none` — no file at that path. -/
abbrev FileSys := String → Option (List ℕ)

/-- Effect of one action: opening for writing truncates the file to empty;
each chunk is appended; rename moves the source file onto the destination. -/
def applyAction (fs : FileSys) : FsAction → FileSys
  | FsAction.openTrunc p => fun q => if q = p then some [] else fs q
  | FsAction.writeChunk p c =>
      fun q => if q = p then some ((fs p).getD [] ++ [c]) else fs q
  | FsAction.closeFile _ => fs
  | FsAction.renameTo src dst =>
      fun q => if q = dst then fs src else if q = src then none else fs q

/-- Run a sequence of write steps to completion. -/
def runActions (fs : FileSys) (ops : List FsAction) : FileSys :=
  ops.foldl applyAction fs

/-- Interrupt a write after its first `k` steps. -/
def crashAfter (fs : FileSys) (ops : List FsAction) (k : ℕ) : FileSys :=
  runActions fs (ops.take k)

/-- `joblib.dump(obj, path)` as called at main.py lines 186 and 212: one
direct write to the checkpoint path, chunk by chunk — no temporary file and
no rename appear anywhere in `main.py`. -/
def joblibDumpOps (p : String) (chunks : List ℕ) : List FsAction :=
  [FsAction.openTrunc p] ++ chunks.map (FsAction.writeChunk p) ++
    [FsAction.closeFile p]

/-- Modelled from the spec: "Written atomically (temp file + rename, or
equivalent)" — the write discipline the claim asserts, absent from `main.py`:
dump the serialized content to a temporary path, then rename it onto the
checkpoint path. -/
def atomicDumpOps (p tmp : String) (chunks : List ℕ) : List FsAction :=
  joblibDumpOps tmp chunks ++ [FsAction.renameTo tmp p]

/-- A one-checkpoint file system: the checkpoint path holds a previous
complete checkpoint with serialized content `[7]`. -/
def ckptFs0 : FileSys :=
  fun q => if q = "results/metrics/gwo_results.joblib" then some [7] else none

/-- The five wolf positions of the spec's concrete hierarchy scenario,
labelled by index. -/
def scenarioPositions : List (List ℚ) := [[0], [1], [2], [3], [4]]

/-- The objective of the spec's concrete hierarchy scenario: fitness list
`[5, 2, 8, 1, 9]` over the five labelled wolves. -/
def scenarioF : List ℚ → Score := fun p =>
  if p = [0] then ((5 : ℚ) : Score)
  else if p = [1] then ((2 : ℚ) : Score)
  else if p = [2] then ((8 : ℚ) : Score)
  else if p = [3] then ((1 : ℚ) : Score)
  else if p = [4] then ((9 : ℚ) : Score)
  else ⊤


/-! ## Helper lemmas -/

lemma npClip_le (lo hi x : ℚ) : npClip lo hi x ≤ hi := min_le_left _ _

lemma le_npClip (lo hi x : ℚ) (h : lo ≤ hi) : lo ≤ npClip lo hi x :=
  le_min h (le_max_left _ _)

lemma updateCoord_mem (a lo hi : ℚ) (d : CoordDraws) (aj bj dj x : ℚ)
    (h : lo ≤ hi) :
    lo ≤ updateCoord a lo hi d aj bj dj x ∧
      updateCoord a lo hi d aj bj dj x ≤ hi := by
  unfold updateCoord
  exact ⟨le_npClip _ _ _ h, npClip_le _ _ _⟩

lemma getD_range_map (f : ℕ → ℚ) (n j : ℕ) (d : ℚ) (h : j < n) :
    ((List.range n).map f).getD j d = f j := by
  rw [List.getD_eq_getElem?_getD]
  rw [List.getElem?_map, List.getElem?_range h]
  rfl

lemma getD_mem_of_lt {α : Type} (l : List α) (i : ℕ) (d : α)
    (h : i < l.length) : l.getD i d ∈ l := by
  rw [List.getD_eq_getElem?_getD, List.getElem?_eq_getElem h]
  exact List.getElem_mem h

lemma updateHierarchy_alpha_le (h : Hierarchy) (pos : List ℚ) (fit : Score) :
    (updateHierarchy h pos fit).alphaScore ≤ h.alphaScore := by
  unfold updateHierarchy
  split_ifs with h1 h2 h3
  · exact le_of_lt h1
  · exact le_refl _
  · exact le_refl _
  · exact le_refl _

lemma evalPass_alpha_le (f : List ℚ → Score) (ps : List (List ℚ))
    (h : Hierarchy) : (evalPass f ps h).alphaScore ≤ h.alphaScore := by
  induction ps generalizing h with
  | nil => exact le_refl _
  | cons p ps ih =>
      exact le_trans (ih (updateHierarchy h p (f p)))
        (updateHierarchy_alpha_le h p (f p))

/-! ## Claim C2: hierarchy demotion rules and the concrete scenario -/

/-- C2 (confirmed): the evaluation-pass hierarchy update obeys the demotion
rules — a fitness strictly below alpha's displaces alpha, demoting the old
alpha to beta and the old beta to delta; one below beta's but not alpha's
displaces beta, demoting the old beta to delta; one below delta's but neither
alpha's nor beta's displaces delta only; otherwise nothing changes.  On a
sorted hierarchy an exact tie never displaces the tied leader: a fitness
equal to alpha's keeps alpha, one equal to beta's keeps alpha and beta, and
one equal to delta's leaves the hierarchy entirely unchanged (the
earlier-found member is kept).  Processing fitness list `[5, 2, 8, 1, 9]` for
5 wolves from empty `+inf` leaders yields alpha = wolf 3 with score 1,
beta = wolf 1 with score 2, delta = wolf 0 with score 5. -/
theorem gwo_hierarchy_update_spec :
    (∀ (h : Hierarchy) (pos : List ℚ) (fit : Score),
      fit < h.alphaScore →
        updateHierarchy h pos fit =
          ⟨pos, fit, h.alphaPos, h.alphaScore, h.betaPos, h.betaScore⟩) ∧
    (∀ (h : Hierarchy) (pos : List ℚ) (fit : Score),
      ¬ fit < h.alphaScore → fit < h.betaScore →
        updateHierarchy h pos fit =
          ⟨h.alphaPos, h.alphaScore, pos, fit, h.betaPos, h.betaScore⟩) ∧
    (∀ (h : Hierarchy) (pos : List ℚ) (fit : Score),
      ¬ fit < h.alphaScore → ¬ fit < h.betaScore → fit < h.deltaScore →
        updateHierarchy h pos fit =
          ⟨h.alphaPos, h.alphaScore, h.betaPos, h.betaScore, pos, fit⟩) ∧
    (∀ (h : Hierarchy) (pos : List ℚ) (fit : Score),
      ¬ fit < h.alphaScore → ¬ fit < h.betaScore → ¬ fit < h.deltaScore →
        updateHierarchy h pos fit = h) ∧
    (∀ (h : Hierarchy) (pos : List ℚ) (fit : Score),
      h.alphaScore ≤ h.betaScore → h.betaScore ≤ h.deltaScore →
      (fit = h.alphaScore →
        (updateHierarchy h pos fit).alphaPos = h.alphaPos ∧
        (updateHierarchy h pos fit).alphaScore = h.alphaScore) ∧
      (fit = h.betaScore →
        (updateHierarchy h pos fit).alphaPos = h.alphaPos ∧
        (updateHierarchy h pos fit).alphaScore = h.alphaScore ∧
        (updateHierarchy h pos fit).betaPos = h.betaPos ∧
        (updateHierarchy h pos fit).betaScore = h.betaScore) ∧
      (fit = h.deltaScore → updateHierarchy h pos fit = h)) ∧
    evalPass scenarioF scenarioPositions (initHierarchy 1) =
      ⟨[3], ((1 : ℚ) : Score), [1], ((2 : ℚ) : Score), [0], ((5 : ℚ) : Score)⟩ := by
  refine ⟨?_, ?_, ?_, ?_, ?_, by decide⟩
  · intro h pos fit h1
    unfold updateHierarchy
    rw [if_pos h1]
  · intro h pos fit h1 h2
    unfold updateHierarchy
    rw [if_neg h1, if_pos h2]
  · intro h pos fit h1 h2 h3
    unfold updateHierarchy
    rw [if_neg h1, if_neg h2, if_pos h3]
  · intro h pos fit h1 h2 h3
    unfold updateHierarchy
    rw [if_neg h1, if_neg h2, if_neg h3]
  · intro h pos fit hab hbd
    refine ⟨?_, ?_, ?_⟩
    · intro he
      subst he
      unfold updateHierarchy
      rw [if_neg (lt_irrefl _)]
      split_ifs <;> exact ⟨rfl, rfl⟩
    · intro he
      subst he
      unfold updateHierarchy
      rw [if_neg (not_lt.mpr hab), if_neg (lt_irrefl _)]
      split_ifs <;> exact ⟨rfl, rfl, rfl, rfl⟩
    · intro he
      subst he
      unfold updateHierarchy
      rw [if_neg (not_lt.mpr (le_trans hab hbd)), if_neg (not_lt.mpr hbd),
        if_neg (lt_irrefl _)]

/-- Witness for C2: a strictly better fitness than alpha's displaces alpha and
demotes the old leaders, evaluated at a concrete hierarchy. -/
theorem gwo_hierarchy_update_spec_wit :
    updateHierarchy
        ⟨[0], ((1 : ℚ) : Score), [0], ((2 : ℚ) : Score), [0], ((3 : ℚ) : Score)⟩
        [9] ((0 : ℚ) : Score) =
      ⟨[9], ((0 : ℚ) : Score), [0], ((1 : ℚ) : Score), [0], ((2 : ℚ) : Score)⟩ :=
  gwo_hierarchy_update_spec.1 _ _ _ (by decide)

/-! ## Claim C5: the objective adapter is total, with finite non-negative or
infinite result -/

/-- C5 (confirmed): for every 3-element parameter vector the adapter either
returns the RMSE of the fitted estimator's validation predictions — a finite
non-negative real — or, when the estimator work raises, returns `+inf`; as a
total function of the abstracted estimator it never propagates an exception. -/
theorem svr_objective_total_nonneg
    (svrFitPredict : ℚ → ℚ → ℚ → Except String (List ℚ))
    (yVal : List ℚ) (params : ℚ × ℚ × ℚ) :
    svrObjective svrFitPredict yVal params = ⊤ ∨
      ∃ v : ℝ, svrObjective svrFitPredict yVal params = (v : WithTop ℝ) ∧
        0 ≤ v := by
  unfold svrObjective
  cases hr : svrFitPredict params.1 params.2.1 params.2.2 with
  | error e => exact Or.inl rfl
  | ok yPred => exact Or.inr ⟨_, rfl, Real.sqrt_nonneg _⟩

/-! ## Claim C6: resume tiers are tried in strict priority order -/

/-- C6 (confirmed): the full checkpoint is tried first and, when it loads,
the GWO checkpoint is never consulted; a full-tier failure falls through to
the GWO tier, a failure of both falls through to a fresh run; and every
failure mode of a tier — missing file, deserialization error, or missing
required field — is a silent fall-through, never a crash. -/
theorem resume_priority_order {V : Type} (full gwo : CkptFile V) :
    (∀ kvs, tryLoadTier full fullRequiredKeys = some kvs →
        resumeDecision full gwo = (ResumePlan.fullResume, false)) ∧
    (tryLoadTier full fullRequiredKeys = none →
        ∀ kvs, tryLoadTier gwo gwoRequiredKeys = some kvs →
          resumeDecision full gwo = (ResumePlan.gwoResume, true)) ∧
    (tryLoadTier full fullRequiredKeys = none →
        tryLoadTier gwo gwoRequiredKeys = none →
          resumeDecision full gwo = (ResumePlan.freshRun, true)) ∧
    (∀ required : List String,
        (full = none ∨ (∃ e, full = some (Except.error e)) ∨
          (∃ kvs k, full = some (Except.ok kvs) ∧ k ∈ required ∧
            kvs.lookup k = none)) →
        tryLoadTier full required = none) := by
  refine ⟨?_, ?_, ?_, ?_⟩
  · intro kvs hfull
    unfold resumeDecision
    rw [hfull]
  · intro hfull kvs hgwo
    unfold resumeDecision
    rw [hfull, hgwo]
  · intro hfull hgwo
    unfold resumeDecision
    rw [hfull, hgwo]
  · intro required hcase
    rcases hcase with h | ⟨e, h⟩ | ⟨kvs, k, h, hk, hnone⟩
    · rw [h]; rfl
    · rw [h]; rfl
    · subst h
      have hfalse : (required.all fun k2 => (kvs.lookup k2).isSome) = false := by
        rw [List.all_eq_false]
        refine ⟨k, hk, ?_⟩
        rw [hnone]
        simp
      simp [tryLoadTier, hfalse]

/-- Witness for C6: with a corrupt full checkpoint and no GWO checkpoint the
controller falls through to a fresh run without crashing. -/
theorem resume_priority_order_wit :
    resumeDecision (V := Unit) (some (Except.error "corrupt")) none =
      (ResumePlan.freshRun, true) :=
  (resume_priority_order (some (Except.error "corrupt")) none).2.2.1 rfl rfl

/-! ## Claim C7: the full checkpoint is not a superset of the GWO checkpoint -/

/-- C7 is false as stated: the GWO checkpoint stores the field `X_train_reg`
(main.py line 180), but the full checkpoint dict (lines 204-211) has no such
field at all. -/
theorem full_ckpt_not_superset_cex :
    ("X_train_reg", "X_train_reg") ∈ gwoCkptFields ∧
    fullCkptFields.lookup "X_train_reg" = none := by decide

/-- C7 (amended): the full checkpoint additionally stores the classification
results, and every field it shares with the GWO checkpoint is stored with the
same value (the same source variable); but it is not a superset — the fields
`X_train_reg`, `X_test_reg`, `X_train_cls`, `y_train_stage` and `svr_gwo` of
the GWO checkpoint are absent from it (its only fields outside the GWO
checkpoint are `class_results` and `timestamp`). -/
theorem ckpt_field_relation :
    fullCkptFields.lookup "class_results" = some "class_results" ∧
    gwoCkptFields.lookup "class_results" = none ∧
    (fullCkptFields.all fun kv =>
      kv.1 == "class_results" || kv.1 == "timestamp" ||
        gwoCkptFields.contains kv) = true ∧
    (["X_train_reg", "X_test_reg", "X_train_cls", "y_train_stage",
      "svr_gwo"].all fun k =>
        (gwoCkptFields.lookup k).isSome && (fullCkptFields.lookup k).isNone)
      = true := by decide

/-! ## Claim C8: failure policy of the non-essential tail phases -/

/-- C8 is false as stated: an exception raised by report generation is not
caught — `generate_clinical_report` (main.py line 286) has no surrounding
handler, so the run aborts instead of completing. -/
theorem report_failure_aborts_cex :
    (mainTail (Except.ok ()) (Except.error "report failure")).2 =
      some "report failure" ∧
    (mainTail (Except.ok ()) (Except.error "report failure")).2 ≠ none := by
  decide

/-- C8 (amended): after the model-producing phases have saved their
checkpoints, a figure-generation exception is caught and logged and the run
still completes, and in no outcome does the controller delete any file or
write to any already-saved checkpoint or model artifact path; a
report-generation exception, however, propagates and aborts the run (still
deleting or overwriting nothing). -/
theorem main_tail_failure_policy (figures report : Except String Unit) :
    ((mainTail figures report).1.all fun op =>
        match op with
        | FsOp.delete _ => false
        | FsOp.write p => !(savedArtifactPaths.contains p)) = true ∧
    (mainTail figures (Except.ok ())).2 = none ∧
    (∀ e : String, (mainTail figures (Except.error e)).2 = some e) := by
  refine ⟨?_, ?_, ?_⟩
  · cases figures <;> cases report <;> rfl
  · cases figures <;> rfl
  · intro e
    cases figures <;> rfl

/-! ## Claim C9: checkpoint writes are not atomic -/

lemma runActions_cons (fs : FileSys) (a : FsAction) (ops : List FsAction) :
    runActions fs (a :: ops) = runActions (applyAction fs a) ops := rfl

lemma runActions_append (fs : FileSys) (ops1 ops2 : List FsAction) :
    runActions fs (ops1 ++ ops2) = runActions (runActions fs ops1) ops2 := by
  unfold runActions
  rw [List.foldl_append]

lemma runActions_writeChunks (p : String) (cs : List ℕ) (fs : FileSys)
    (l : List ℕ) (hfs : fs p = some l) :
    runActions fs (cs.map (FsAction.writeChunk p)) p = some (l ++ cs) := by
  induction cs generalizing fs l with
  | nil => simpa using hfs
  | cons c cs ih =>
      rw [List.map_cons, runActions_cons,
        ih _ (l ++ [c]) (by simp [applyAction, hfs])]
      simp

/-- Which path(s) a write step can affect. -/
def actionTouches (a : FsAction) (q : String) : Prop :=
  match a with
  | FsAction.openTrunc p => p = q
  | FsAction.writeChunk p _ => p = q
  | FsAction.closeFile _ => False
  | FsAction.renameTo src dst => src = q ∨ dst = q

lemma applyAction_untouched (fs : FileSys) (a : FsAction) (q : String)
    (h : ¬ actionTouches a q) : applyAction fs a q = fs q := by
  cases a with
  | openTrunc p =>
      simp only [actionTouches] at h
      simp only [applyAction]
      rw [if_neg (fun he => h he.symm)]
  | writeChunk p c =>
      simp only [actionTouches] at h
      simp only [applyAction]
      rw [if_neg (fun he => h he.symm)]
  | closeFile p => rfl
  | renameTo src dst =>
      simp only [actionTouches] at h
      push_neg at h
      simp only [applyAction]
      rw [if_neg (fun he => h.2 he.symm), if_neg (fun he => h.1 he.symm)]

lemma runActions_untouched (ops : List FsAction) (q : String)
    (h : ∀ a ∈ ops, ¬ actionTouches a q) (fs : FileSys) :
    runActions fs ops q = fs q := by
  induction ops generalizing fs with
  | nil => rfl
  | cons a ops ih =>
      rw [runActions_cons, ih (fun b hb => h b (List.mem_cons_of_mem _ hb))]
      exact applyAction_untouched fs a q (h a (List.mem_cons_self _ _))

lemma runActions_dump_self (fs : FileSys) (p : String) (chunks : List ℕ) :
    runActions fs (joblibDumpOps p chunks) p = some chunks := by
  unfold joblibDumpOps
  rw [runActions_append, runActions_append]
  have h1 : runActions fs [FsAction.openTrunc p] p = some [] := by
    show applyAction fs (FsAction.openTrunc p) p = some []
    simp [applyAction]
  have h2 : runActions (runActions fs [FsAction.openTrunc p])
      (chunks.map (FsAction.writeChunk p)) p = some chunks := by
    rw [runActions_writeChunks p chunks _ [] h1]
    simp
  show runActions (runActions fs [FsAction.openTrunc p])
      (chunks.map (FsAction.writeChunk p)) p = some chunks
  exact h2

/-- C9 is false as stated: the checkpoint path holds a previous complete
checkpoint `[7]`; interrupting the direct `joblib.dump` of new content
`[1, 2]` after two steps leaves the path holding the partial file `[1]` —
neither the previous checkpoint, nor no file, nor the complete new content. -/
theorem joblib_dump_not_atomic_cex :
    ckptFs0 "results/metrics/gwo_results.joblib" = some [7] ∧
    crashAfter ckptFs0
        (joblibDumpOps "results/metrics/gwo_results.joblib" [1, 2]) 2
        "results/metrics/gwo_results.joblib" = some [1] ∧
    (some [1] : Option (List ℕ)) ≠ some [7] ∧
    (some [1] : Option (List ℕ)) ≠ none ∧
    (some [1] : Option (List ℕ)) ≠ some [1, 2] := by decide

/-- C9 (amended): the controller's checkpoint writes are plain `joblib.dump`
calls to the target path, with no temp-file-plus-rename: a write interrupted
after `k ≥ 1` steps leaves the checkpoint path holding exactly the
already-written part `chunks.take (k − 1)` of the **new** serialized content —
a truncated partial file whenever `1 ≤ k − 1 < chunks.length` — whereas the
temp-file-plus-rename discipline the claim describes would leave either the
untouched previous file or the complete new content. -/
theorem dump_crash_semantics (fs : FileSys) (p tmp : String) (chunks : List ℕ)
    (k : ℕ) (hp : p ≠ tmp) :
    (1 ≤ k → k ≤ chunks.length + 1 →
      crashAfter fs (joblibDumpOps p chunks) k p =
        some (chunks.take (k - 1))) ∧
    (crashAfter fs (atomicDumpOps p tmp chunks) k p = fs p ∨
      crashAfter fs (atomicDumpOps p tmp chunks) k p = some chunks) := by
  constructor
  · intro hk1 hk2
    obtain ⟨k', rfl⟩ : ∃ k', k = k' + 1 :=
      ⟨k - 1, (Nat.succ_pred_eq_of_pos hk1).symm⟩
    have hops : joblibDumpOps p chunks =
        FsAction.openTrunc p ::
          (chunks.map (FsAction.writeChunk p) ++ [FsAction.closeFile p]) := by
      unfold joblibDumpOps
      simp
    unfold crashAfter
    rw [hops, List.take_succ_cons, runActions_cons]
    have hk' : k' ≤ chunks.length := by omega
    have htake : (chunks.map (FsAction.writeChunk p) ++
        [FsAction.closeFile p]).take k' =
        (chunks.take k').map (FsAction.writeChunk p) := by
      rw [List.take_append_of_le_length (by simpa using hk'), List.map_take]
    rw [htake]
    have hopen : applyAction fs (FsAction.openTrunc p) p = some [] := by
      simp [applyAction]
    rw [runActions_writeChunks p (chunks.take k') _ [] hopen]
    simp
  · by_cases hk : k ≤ (joblibDumpOps tmp chunks).length
    · left
      unfold crashAfter atomicDumpOps
      rw [List.take_append_of_le_length hk]
      apply runActions_untouched
      intro a ha
      have ha2 : a ∈ joblibDumpOps tmp chunks := List.take_subset _ _ ha
      unfold joblibDumpOps at ha2
      rw [List.mem_append, List.mem_append] at ha2
      rcases ha2 with (ha2 | ha2) | ha2
      · rw [List.mem_singleton] at ha2
        subst ha2
        exact fun he => hp he.symm
      · rw [List.mem_map] at ha2
        obtain ⟨c, _, rfl⟩ := ha2
        exact fun he => hp he.symm
      · rw [List.mem_singleton] at ha2
        subst ha2
        exact fun he => he
    · right
      push_neg at hk
      have hlen : (atomicDumpOps p tmp chunks).length ≤ k := by
        unfold atomicDumpOps
        rw [List.length_append]
        simp
        omega
      unfold crashAfter
      rw [List.take_of_length_le hlen]
      unfold atomicDumpOps
      rw [runActions_append]
      show applyAction (runActions fs (joblibDumpOps tmp chunks))
          (FsAction.renameTo tmp p) p = some chunks
      simp only [applyAction]
      rw [if_pos trivial]
      exact runActions_dump_self fs tmp chunks

/-- Witness for C9 (amended): interrupting the dump of `[1, 2]` after three
steps leaves the path holding `[1, 2]`, the written part of the new content. -/
theorem dump_crash_semantics_wit :
    crashAfter ckptFs0
        (joblibDumpOps "results/metrics/gwo_results.joblib" [1, 2]) 3
        "results/metrics/gwo_results.joblib" = some [1, 2] := by
  have h := (dump_crash_semantics ckptFs0 "results/metrics/gwo_results.joblib"
    "tmp" [1, 2] 3 (by decide)).1 (by decide) (by decide)
  exact h

/-! ## GWO run invariants -/

lemma gwoRun_zero (f : List ℚ → Score) (dim : ℕ) (lb ub : List ℚ)
    (n T : ℕ) (tape : RandomTape) :
    gwoRun f dim lb ub n T tape 0 = gwoInit lb ub dim n tape := rfl

lemma gwoRun_succ (f : List ℚ → Score) (dim : ℕ) (lb ub : List ℚ)
    (n T : ℕ) (tape : RandomTape) (t : ℕ) :
    gwoRun f dim lb ub n T tape (t + 1) =
      gwoIter f lb ub T tape t (gwoRun f dim lb ub n T tape t) := by
  unfold gwoRun
  rw [List.range_succ, List.foldl_append]
  rfl

lemma initPositions_inBounds (lb ub : List ℚ) (dim n : ℕ) (tape : RandomTape)
    (hbl : ∀ j, j < dim → lb.getD j 0 ≤ ub.getD j 0)
    (hr : ∀ i j, 0 ≤ tape.initDraw i j ∧ tape.initDraw i j ≤ 1) :
    ∀ p ∈ initPositions lb ub dim n tape, inBounds lb ub dim p := by
  intro p hp
  unfold initPositions at hp
  rw [List.mem_map] at hp
  obtain ⟨i, hi, rfl⟩ := hp
  constructor
  · simp
  · intro j hj
    rw [getD_range_map _ _ _ _ hj]
    have h1 := (hr i j).1
    have h2 := (hr i j).2
    have h3 := hbl j hj
    constructor
    · nlinarith [mul_nonneg h1 (sub_nonneg.mpr h3)]
    · nlinarith [mul_le_of_le_one_left (sub_nonneg.mpr h3) h2]

lemma updateWolf_inBounds (lb ub : List ℚ) (dim : ℕ) (a : ℚ)
    (draws : ℕ → CoordDraws) (h : Hierarchy) (pos : List ℚ)
    (hbl : ∀ j, j < dim → lb.getD j 0 ≤ ub.getD j 0)
    (hlen : pos.length = dim) :
    inBounds lb ub dim (updateWolf lb ub a draws h pos) := by
  constructor
  · unfold updateWolf
    rw [hlen]
    simp
  · intro j hj
    unfold updateWolf
    rw [hlen]
    rw [getD_range_map _ _ _ _ hj]
    exact updateCoord_mem a _ _ (draws j) _ _ _ _ (hbl j hj)

/-- Invariant tying alpha's position to its score: while alpha's score is
still the initial `+inf`, its position is still the initial zero vector;
once alpha's score is finite, its position is a copied (in-bounds) wolf
position. -/
def HierOk (lb ub : List ℚ) (dim : ℕ) (h : Hierarchy) : Prop :=
  (h.alphaScore = ⊤ → h.alphaPos = List.replicate dim 0) ∧
  (h.alphaScore ≠ ⊤ → inBounds lb ub dim h.alphaPos)

lemma updateHierarchy_hierOk (lb ub : List ℚ) (dim : ℕ) (h : Hierarchy)
    (pos : List ℚ) (fit : Score) (hok : HierOk lb ub dim h)
    (hpos : inBounds lb ub dim pos) :
    HierOk lb ub dim (updateHierarchy h pos fit) := by
  unfold updateHierarchy
  split_ifs with h1 h2 h3
  · constructor
    · intro htop
      have hft : fit = ⊤ := htop
      rw [hft] at h1
      exact absurd h1 not_top_lt
    · intro _
      exact hpos
  · exact hok
  · exact hok
  · exact hok

lemma evalPass_hierOk (f : List ℚ → Score) (lb ub : List ℚ) (dim : ℕ)
    (positions : List (List ℚ)) (h : Hierarchy)
    (hps : ∀ p ∈ positions, inBounds lb ub dim p)
    (hok : HierOk lb ub dim h) : HierOk lb ub dim (evalPass f positions h) := by
  induction positions generalizing h with
  | nil => exact hok
  | cons p ps ih =>
      exact ih (updateHierarchy h p (f p))
        (fun q hq => hps q (List.mem_cons_of_mem _ hq))
        (updateHierarchy_hierOk lb ub dim h p (f p) hok
          (hps p (List.mem_cons_self _ _)))

lemma gwoRun_invariant (f : List ℚ → Score) (dim : ℕ) (lb ub : List ℚ)
    (n T : ℕ) (tape : RandomTape)
    (hbl : ∀ j, j < dim → lb.getD j 0 ≤ ub.getD j 0)
    (hr : ∀ i j, 0 ≤ tape.initDraw i j ∧ tape.initDraw i j ≤ 1) :
    ∀ t, (∀ p ∈ (gwoRun f dim lb ub n T tape t).positions,
        inBounds lb ub dim p) ∧
      HierOk lb ub dim (gwoRun f dim lb ub n T tape t).hier := by
  intro t
  induction t with
  | zero =>
      constructor
      · exact initPositions_inBounds lb ub dim n tape hbl hr
      · exact ⟨fun _ => rfl, fun hne => absurd rfl hne⟩
  | succ t ih =>
      rw [gwoRun_succ]
      obtain ⟨hpos, hok⟩ := ih
      constructor
      · intro p hp
        have hp2 : p ∈ (List.range
            (gwoRun f dim lb ub n T tape t).positions.length).map fun i =>
              updateWolf lb ub (2 - (t : ℚ) * (2 / (T : ℚ)))
                (tape.iterDraw t i)
                (evalPass f (gwoRun f dim lb ub n T tape t).positions
                  (gwoRun f dim lb ub n T tape t).hier)
                ((gwoRun f dim lb ub n T tape t).positions.getD i []) := hp
        rw [List.mem_map] at hp2
        obtain ⟨i, hi, rfl⟩ := hp2
        rw [List.mem_range] at hi
        refine updateWolf_inBounds lb ub dim _ _ _ _ hbl ?_
        have hmem := getD_mem_of_lt
          (gwoRun f dim lb ub n T tape t).positions i [] hi
        exact (hpos _ hmem).1
      · exact evalPass_hierOk f lb ub dim _ _ hpos hok

/-! ## Claim C1: boundary containment -/

/-- C1 is false as stated: on the valid one-dimensional search space
`[1, 2]` with an objective that always returns `+inf` (legal per the spec),
`optimize` returns the initial zero vector as the alpha position, which
violates the lower bound `1`. -/
theorem gwo_alpha_out_of_bounds_cex :
    (1 : ℚ) ≤ 2 ∧
    (gwoOptimize (fun _ => ⊤) 1 [1] [2] 1 1 zeroTape).hier.alphaPos = [0] ∧
    ¬ inBounds [1] [2] 1
        ((gwoOptimize (fun _ => ⊤) 1 [1] [2] 1 1 zeroTape).hier.alphaPos) := by
  decide

/-- C1 (amended): on a valid search space every intermediate wolf position,
at initialization and after every iteration, satisfies
`lower[i] ≤ position[i] ≤ upper[i]` in every dimension; the returned alpha
position does so whenever some evaluated fitness beat the initial `+inf`
leader scores (alpha's score is no longer `+inf`); when no fitness ever did,
the returned alpha position is the initial zero vector, which need not lie
within the bounds. -/
theorem gwo_bounds_containment (f : List ℚ → Score) (dim : ℕ)
    (lb ub : List ℚ) (nWolves maxIter : ℕ) (tape : RandomTape) (t : ℕ)
    (hbl : ∀ j, j < dim → lb.getD j 0 ≤ ub.getD j 0)
    (hr : ∀ i j, 0 ≤ tape.initDraw i j ∧ tape.initDraw i j ≤ 1) :
    (∀ p ∈ (gwoRun f dim lb ub nWolves maxIter tape t).positions,
        inBounds lb ub dim p) ∧
    ((gwoRun f dim lb ub nWolves maxIter tape t).hier.alphaScore ≠ ⊤ →
        inBounds lb ub dim
          (gwoRun f dim lb ub nWolves maxIter tape t).hier.alphaPos) ∧
    ((gwoRun f dim lb ub nWolves maxIter tape t).hier.alphaScore = ⊤ →
        (gwoRun f dim lb ub nWolves maxIter tape t).hier.alphaPos =
          List.replicate dim 0) := by
  obtain ⟨hpos, hok⟩ :=
    gwoRun_invariant f dim lb ub nWolves maxIter tape hbl hr t
  exact ⟨hpos, hok.2, hok.1⟩

/-- Witness for C1 (amended): a concrete run in `[0, 1]` whose alpha score is
finite and whose returned alpha position lies within the bounds. -/
theorem gwo_bounds_containment_wit :
    inBounds [0] [1] 1
      ((gwoRun (fun _ => ((0 : ℚ) : Score)) 1 [0] [1] 1 1 zeroTape 1).hier.alphaPos) :=
  (gwo_bounds_containment (fun _ => ((0 : ℚ) : Score)) 1 [0] [1] 1 1 zeroTape 1
    (by decide) (fun i j => ⟨le_refl 0, by show (0 : ℚ) ≤ 1; norm_num⟩)).2.1
    (by decide)

/-! ## Claim C3: the convergence curve is non-increasing -/

lemma listGetD_eq_get {α : Type} (l : List α) (i : ℕ) (d : α)
    (h : i < l.length) : l.getD i d = l.get ⟨i, h⟩ := by
  rw [List.getD_eq_getElem?_getD, List.getElem?_eq_getElem h]
  rfl

lemma gwoIter_hier (f : List ℚ → Score) (lb ub : List ℚ) (T : ℕ)
    (tape : RandomTape) (t : ℕ) (s : GWOState) :
    (gwoIter f lb ub T tape t s).hier = evalPass f s.positions s.hier := rfl

lemma gwoIter_curve (f : List ℚ → Score) (lb ub : List ℚ) (T : ℕ)
    (tape : RandomTape) (t : ℕ) (s : GWOState) :
    (gwoIter f lb ub T tape t s).curve =
      s.curve ++ [(evalPass f s.positions s.hier).alphaScore] := rfl

lemma gwoRun_curve_invariant (f : List ℚ → Score) (dim : ℕ) (lb ub : List ℚ)
    (n T : ℕ) (tape : RandomTape) :
    ∀ t, List.Pairwise (fun x y : Score => y ≤ x)
        (gwoRun f dim lb ub n T tape t).curve ∧
      ∀ x ∈ (gwoRun f dim lb ub n T tape t).curve,
        (gwoRun f dim lb ub n T tape t).hier.alphaScore ≤ x := by
  intro t
  induction t with
  | zero => exact ⟨List.Pairwise.nil, fun x hx => absurd hx (List.not_mem_nil x)⟩
  | succ t ih =>
      rw [gwoRun_succ]
      obtain ⟨hpw, hub2⟩ := ih
      have halpha : (evalPass f (gwoRun f dim lb ub n T tape t).positions
          (gwoRun f dim lb ub n T tape t).hier).alphaScore ≤
            (gwoRun f dim lb ub n T tape t).hier.alphaScore :=
        evalPass_alpha_le f _ _
      constructor
      · rw [gwoIter_curve, List.pairwise_append]
        refine ⟨hpw, List.pairwise_singleton _ _, ?_⟩
        intro x hx y hy
        rw [List.mem_singleton] at hy
        subst hy
        exact le_trans halpha (hub2 x hx)
      · intro x hx
        rw [gwoIter_curve, List.mem_append] at hx
        rw [gwoIter_hier]
        rcases hx with hx | hx
        · exact le_trans halpha (hub2 x hx)
        · rw [List.mem_singleton] at hx
          subst hx
          exact le_refl _

/-- C3 (confirmed): on a fresh optimizer instance (empty initial curve), the
convergence curve recorded by a run is non-increasing: for all iteration
indices `s ≤ t` within the curve, `curve[t] ≤ curve[s]` — alpha's recorded
score never worsens between iterations. -/
theorem gwo_curve_monotone (f : List ℚ → Score) (dim : ℕ) (lb ub : List ℚ)
    (nWolves maxIter : ℕ) (tape : RandomTape) (s t : ℕ) (hst : s ≤ t)
    (ht : t < (gwoOptimize f dim lb ub nWolves maxIter tape).curve.length) :
    (gwoOptimize f dim lb ub nWolves maxIter tape).curve.getD t ⊤ ≤
      (gwoOptimize f dim lb ub nWolves maxIter tape).curve.getD s ⊤ := by
  have hpw : List.Pairwise (fun x y : Score => y ≤ x)
      (gwoOptimize f dim lb ub nWolves maxIter tape).curve :=
    (gwoRun_curve_invariant f dim lb ub nWolves maxIter tape maxIter).1
  have hs : s < (gwoOptimize f dim lb ub nWolves maxIter tape).curve.length :=
    lt_of_le_of_lt hst ht
  rcases lt_or_eq_of_le hst with hlt | heq
  · rw [listGetD_eq_get _ t ⊤ ht, listGetD_eq_get _ s ⊤ hs]
    exact List.pairwise_iff_get.mp hpw ⟨s, hs⟩ ⟨t, ht⟩ hlt
  · subst heq
    exact le_refl _

/-- Witness for C3: on a concrete two-iteration run, the second curve entry is
at most the first. -/
theorem gwo_curve_monotone_wit :
    (gwoOptimize (fun _ => ((0 : ℚ) : Score)) 1 [0] [1] 1 2 zeroTape).curve.getD 1 ⊤ ≤
      (gwoOptimize (fun _ => ((0 : ℚ) : Score)) 1 [0] [1] 1 2 zeroTape).curve.getD 0 ⊤ :=
  gwo_curve_monotone (fun _ => ((0 : ℚ) : Score)) 1 [0] [1] 1 2 zeroTape 0 1
    (by decide) (by decide)

/-! ## Claim C4: no search-space validation -/

/-- C4 is false as stated: for the input with `lower[0] = 2 > 1 = upper[0]`
(a valid-length, one-dimensional search space with inverted bounds), the
engine performs no rejection: a wolf position `[2]` is initialized from the
inverted interval, the objective is evaluated (alpha's score becomes its
value `0`, leaving the initial `+inf`), and `optimize` returns normally. -/
theorem gwo_no_validation_cex :
    (1 : ℚ) < 2 ∧
    initPositions [2] [1] 1 1 zeroTape = [[2]] ∧
    gwoOptimizeChecked (fun _ => ((0 : ℚ) : Score)) 1 [2] [1] 1 1 zeroTape =
      Except.ok (gwoOptimize (fun _ => ((0 : ℚ) : Score)) 1 [2] [1] 1 1 zeroTape) ∧
    (gwoOptimize (fun _ => ((0 : ℚ) : Score)) 1 [2] [1] 1 1
        zeroTape).hier.alphaScore = ((0 : ℚ) : Score) := by
  refine ⟨by norm_num, ?_, rfl, by decide⟩
  show (List.range 1).map (fun i => (List.range 1).map fun j =>
    ([2] : List ℚ).getD j 0 +
      zeroTape.initDraw i j * (([1] : List ℚ).getD j 0 - ([2] : List ℚ).getD j 0)) = [[2]]
  simp [zeroTape]
  decide

/-- C4 (amended): the Optimizer Engine performs no search-space validation:
for every bound vector pair of the full length `dim` — whether or not
`lower[i] ≤ upper[i]` holds, and also when `dim = 0` — no error is raised;
wolf positions are initialized and the whole optimization runs to completion.
The only rejection an invalid input can produce is numpy's broadcast error
inside `optimize` (not in `__init__`) when a bound vector's length is
incompatible with the position matrix shape. -/
theorem gwo_no_bounds_validation (f : List ℚ → Score) (dim : ℕ)
    (lb ub : List ℚ) (nWolves maxIter : ℕ) (tape : RandomTape)
    (hlb : lb.length = dim) (hub : ub.length = dim) :
    gwoOptimizeChecked f dim lb ub nWolves maxIter tape =
      Except.ok (gwoOptimize f dim lb ub nWolves maxIter tape) := by
  unfold gwoOptimizeChecked
  rw [if_neg]
  rintro (⟨h1, _⟩ | ⟨h1, _⟩)
  · exact h1 hlb
  · exact h1 hub

/-- Witness for C4 (amended): with inverted one-dimensional bounds `[2], [1]`
the engine still runs and returns a result, no error. -/
theorem gwo_no_bounds_validation_wit :
    gwoOptimizeChecked (fun _ => ⊤) 1 [2] [1] 1 1 zeroTape =
      Except.ok (gwoOptimize (fun _ => ⊤) 1 [2] [1] 1 1 zeroTape) :=
  gwo_no_bounds_validation (fun _ => ⊤) 1 [2] [1] 1 1 zeroTape rfl rfl

/-! ## Claim C10: an everywhere-infinite objective terminates normally -/

lemma updateHierarchy_top (h : Hierarchy) (pos : List ℚ) :
    updateHierarchy h pos ⊤ = h := by
  unfold updateHierarchy
  rw [if_neg not_top_lt, if_neg not_top_lt, if_neg not_top_lt]

lemma evalPass_top (f : List ℚ → Score) (hf : ∀ p, f p = ⊤)
    (ps : List (List ℚ)) (h : Hierarchy) : evalPass f ps h = h := by
  induction ps generalizing h with
  | nil => rfl
  | cons p ps ih =>
      show evalPass f ps (updateHierarchy h p (f p)) = h
      rw [hf p, updateHierarchy_top]
      exact ih h

/-- C10 (confirmed): on every valid search space, population size, and
iteration budget `T ≥ 1`, if the objective returns `+inf` at every evaluated
position then `optimize` terminates normally (it is a total function of its
inputs), records exactly `T` convergence-curve entries — one per iteration,
each `+inf` — and returns `+inf` as the best score. -/
theorem gwo_all_inf_terminates (f : List ℚ → Score) (dim : ℕ)
    (lb ub : List ℚ) (nWolves maxIter : ℕ) (tape : RandomTape)
    (_hbl : ∀ j, j < dim → lb.getD j 0 ≤ ub.getD j 0) (_hT : 1 ≤ maxIter)
    (hf : ∀ p, f p = ⊤) :
    (gwoOptimize f dim lb ub nWolves maxIter tape).hier.alphaScore = ⊤ ∧
    (gwoOptimize f dim lb ub nWolves maxIter tape).curve =
      List.replicate maxIter ⊤ := by
  have key : ∀ t, (gwoRun f dim lb ub nWolves maxIter tape t).hier =
      initHierarchy dim ∧
      (gwoRun f dim lb ub nWolves maxIter tape t).curve =
        List.replicate t ⊤ := by
    intro t
    induction t with
    | zero => exact ⟨rfl, rfl⟩
    | succ t ih =>
        rw [gwoRun_succ]
        obtain ⟨hh, hc⟩ := ih
        have hev : evalPass f (gwoRun f dim lb ub nWolves maxIter tape t).positions
            (gwoRun f dim lb ub nWolves maxIter tape t).hier =
              (gwoRun f dim lb ub nWolves maxIter tape t).hier :=
          evalPass_top f hf _ _
        constructor
        · rw [gwoIter_hier, hev, hh]
        · rw [gwoIter_curve, hev, hh, hc]
          show List.replicate t (⊤ : Score) ++ [⊤] = List.replicate (t + 1) ⊤
          rw [← List.replicate_succ']
  obtain ⟨hh, hc⟩ := key maxIter
  constructor
  · show (gwoRun f dim lb ub nWolves maxIter tape maxIter).hier.alphaScore = ⊤
    rw [hh]
    rfl
  · exact hc

/-- Witness for C10: a concrete valid run whose objective is everywhere
`+inf` returns best score `+inf` with a length-1 curve of `+inf`. -/
theorem gwo_all_inf_terminates_wit :
    (gwoOptimize (fun _ => (⊤ : Score)) 1 [0] [1] 1 1 zeroTape).hier.alphaScore = ⊤ ∧
    (gwoOptimize (fun _ => (⊤ : Score)) 1 [0] [1] 1 1 zeroTape).curve =
      List.replicate 1 ⊤ :=
  gwo_all_inf_terminates (fun _ => (⊤ : Score)) 1 [0] [1] 1 1 zeroTape
    (by decide) (by decide) (fun _ => rfl)
